import Mathlib

/-!
Shallow embedding of QMigrate/signal/onset/staltaonset.py.

Waveform samples are modelled as rationals (exact counterparts of the IEEE
doubles the code manipulates); onset values, which pass through a logarithm,
live in the reals.  The routines imported from external libraries
(scipy.signal.butter, scipy.signal.lfilter, obspy cosine_taper, obspy
classic_sta_lta) are not part of this repository: the Butterworth design
routine and the taper are taken as parameters, lfilter is modelled by its
defining difference equation, and classic_sta_lta is modelled from the spec.
-/

namespace QMStaLta

/-- Smallest positive normal double, np.finfo(0.0).tiny (staltaonset.py
line 62). -/
def dtiny : ℚ := 1 / 2 ^ 1022

/-- Sum of the squares of the first k samples of a signal; the value written
csum(k-1) in the cumulative-sum description of the spec. -/
def sumSqFirst (a : List ℚ) (k : ℕ) : ℚ := ((a.take k).map (fun v => v * v)).sum

/-- Cumulative sum of squares, carrying the running total. -/
def cumAux (acc : ℚ) : List ℚ → List ℚ
  | [] => []
  | x :: xs => (acc + x * x) :: cumAux (acc + x * x) xs

/-- np.cumsum(a ** 2) (staltaonset.py line 46): inclusive cumulative sum of
the squared samples. -/
def csum (a : List ℚ) : List ℚ := cumAux 0 a

/-- The sta array after line 51 (sta[nsta:] = sta[nsta:] - sta[:-nsta]),
as a function of the index.  The callers pass integer window lengths, so the
int(round(.)) of lines 42-43 is the identity. -/
def staStage1 (c : List ℚ) (nsta i : ℕ) : ℚ :=
  if nsta ≤ i then c.getD i 0 - c.getD (i - nsta) 0 else c.getD i 0

/-- The sta array after line 52 (sta[nsta:-nsta] = sta[nsta*2:]): entries of
the slice [nsta, n-nsta) are pulled forward by nsta samples. -/
def staShifted (c : List ℚ) (nsta i : ℕ) : ℚ :=
  if nsta ≤ i ∧ i < c.length - nsta then staStage1 c nsta (i + nsta)
  else staStage1 c nsta i

/-- The sta array after line 53 (sta /= nsta) and the boundary zeroing of
lines 58-59 (sta[:(nlta - 1)] = 0 and sta[-nsta:] = 0). -/
def staVal (a : List ℚ) (nsta nlta i : ℕ) : ℚ :=
  if i < nlta - 1 then 0
  else if a.length - nsta ≤ i then 0
  else staShifted (csum a) nsta i / nsta

/-- The lta array after lines 55-56 (lta[nlta:] = lta[nlta:] - lta[:-nlta];
lta /= nlta). -/
def ltaVal (a : List ℚ) (nlta i : ℕ) : ℚ :=
  (if nlta ≤ i then (csum a).getD i 0 - (csum a).getD (i - nlta) 0
   else (csum a).getD i 0) / nlta

/-- One entry of the returned sta / lta, with the division-by-zero guard of
lines 61-67: where lta < dtiny the code sets lta to dtiny and sta to 0, so
the quotient there is 0. -/
def staltaAt (a : List ℚ) (nsta nlta i : ℕ) : ℚ :=
  if ltaVal a nlta i < dtiny then 0 else staVal a nsta nlta i / ltaVal a nlta i

/-- sta_lta_centred (staltaonset.py lines 16-67). -/
def sta_lta_centred (a : List ℚ) (nsta nlta : ℕ) : List ℚ :=
  (List.range a.length).map (staltaAt a nsta nlta)

/-- Modelled from the spec: classic_sta_lta is imported from the external
obspy library (staltaonset.py line 10), so its code is not in this
repository.  Spec section 4.2: in classic mode the STA at index i is the
average of the squared amplitude over [i-nsta+1, i] and the LTA the average
over [i-nlta+1, i], the ratio being assigned at index i (trailing
alignment); indices without full long-window history and near-zero LTA
values behave as in the centred variant. -/
def classic_sta_lta (a : List ℚ) (nsta nlta i : ℕ) : ℚ :=
  let sta := (sumSqFirst a (i + 1) - sumSqFirst a (i + 1 - nsta)) / nsta
  let lta := (sumSqFirst a (i + 1) - sumSqFirst a (i + 1 - nlta)) / nlta
  if i < nlta - 1 then 0 else if lta < dtiny then 0 else sta / lta

/-- The raw STA/LTA ratio selected by the centred flag (staltaonset.py
lines 114-117). -/
def ratioAt (a : List ℚ) (stw ltw : ℕ) (centred : Bool) (i : ℕ) : ℚ :=
  if centred then staltaAt a stw ltw i else classic_sta_lta a stw ltw i

/-- np.clip(1 + onset[i, :], 0.8, np.inf, ...) (staltaonset.py line 118):
a lower clip at 0.8 only. -/
def clipRow (a : List ℚ) (stw ltw : ℕ) (centred : Bool) (i : ℕ) : ℚ :=
  max (4 / 5) (1 + ratioAt a stw ltw centred i)

/-- One row of onset() (staltaonset.py lines 105-121): if the row sums to
zero the whole row is set to 0, otherwise np.log — the natural logarithm —
of the clipped ratio (line 119). -/
noncomputable def onsetRow (a : List ℚ) (stw ltw : ℕ) (centred : Bool)
    (i : ℕ) : ℝ :=
  if a.sum = 0 then 0 else Real.log (clipRow a stw ltw centred i)

/-- onset() (staltaonset.py lines 70-121), viewed per channel and sample. -/
noncomputable def onset (sig : List (List ℚ)) (stw ltw : ℕ) (centred : Bool)
    (ch i : ℕ) : ℝ :=
  onsetRow (sig.getD ch []) stw ltw centred i

/-- One step of the direct-form difference equation implemented by the
external scipy.signal.lfilter (staltaonset.py line 11):
y n = (sum over k of b k * x (n - k) - sum over k of a k * y (n - k)) / a 0,
with px / py holding the past inputs / outputs, most recent first. -/
def lfStep (b a : List ℚ) (x : ℚ) (px py : List ℚ) : ℚ :=
  (((b.zip (x :: px)).map (fun p => p.1 * p.2)).sum
      - ((a.tail.zip py).map (fun p => p.1 * p.2)).sum) / a.headD 1

def lfilterGo (b a : List ℚ) : List ℚ → List ℚ → List ℚ → List ℚ
  | _, py, [] => py.reverse
  | px, py, x :: xs => lfilterGo b a (x :: px) (lfStep b a x px py :: py) xs

/-- scipy.signal.lfilter (external library routine, modelled by its defining
difference equation), starting from zero initial state. -/
def lfilter (b a xs : List ℚ) : List ℚ := lfilterGo b a [] [] xs

/-- One channel of filter() (staltaonset.py lines 160-165): subtract the
initial sample, multiply by the taper (the values of the external obspy
cosine_taper are the parameter tap), filter the reversed trace, reverse,
and filter again forwards. -/
def filterRow (b a tap row : List ℚ) : List ℚ :=
  let r0 := row.map (fun v => v - row.headD 0)
  let rt := (r0.zip tap).map (fun p => p.1 * p.2)
  let r1 := (lfilter b a rt.reverse).reverse
  lfilter b a r1

/-- The channel loop of filter() (staltaonset.py lines 156-167). -/
def filterArr (b a tap : List ℚ) (sig : List (List ℚ)) : List (List ℚ) :=
  sig.map (filterRow b a tap)

/-- filter() (staltaonset.py lines 124-167).  The Butterworth design routine
butter is external scipy code, taken here as the parameter bd; as in
line 154 it is invoked on the doubled normalized corner frequencies
2 * lc / sampling_rate and 2 * hc / sampling_rate and the order, returning
the coefficient pair (b1, a1).  No validation of the corners or the order
is performed. -/
def filter (bd : ℚ → ℚ → ℕ → List ℚ × List ℚ) (tap : List ℚ)
    (sig : List (List ℚ)) (sampling_rate lc hc : ℚ) (order : ℕ) :
    List (List ℚ) :=
  let ba := bd (2 * lc / sampling_rate) (2 * hc / sampling_rate) order
  filterArr ba.1 ba.2 tap sig

/-- Python int() truncates toward zero. -/
def pyInt (q : ℚ) : ℤ := if 0 ≤ q then ⌊q⌋ else ⌈q⌉

/-- The window-length computation int(stw * sampling_rate) + 1 of
staltaonset.py lines 300-302 and 339-341. -/
def winSamples (sec rate : ℚ) : ℤ := pyInt (sec * rate) + 1

/-- The configuration state held by ClassicSTALTAOnset (staltaonset.py
lines 170-248).  The Python attribute _post_pad is only created when the
post_pad setter runs, modelled by an Option that starts out none. -/
structure ClassicSTALTAOnset where
  sampling_rate : ℚ
  p_bp_filter : ℚ × ℚ × ℕ
  s_bp_filter : ℚ × ℚ × ℕ
  p_onset_win : ℚ × ℚ
  s_onset_win : ℚ × ℚ
  onset_centred : Bool
  post_pad_store : Option ℚ

/-- ClassicSTALTAOnset.__init__ (staltaonset.py lines 223-248). -/
def ClassicSTALTAOnset.init (sampling_rate : ℚ) : ClassicSTALTAOnset :=
  { sampling_rate := sampling_rate
    p_bp_filter := (2, 16, 2)
    s_bp_filter := (2, 12, 2)
    p_onset_win := (1 / 5, 1)
    s_onset_win := (1 / 5, 1)
    onset_centred := false
    post_pad_store := none }

/-- CentredSTALTAOnset.__init__ (staltaonset.py lines 443-458): identical
but with onset_centred set to true. -/
def CentredSTALTAOnset.init (sampling_rate : ℚ) : ClassicSTALTAOnset :=
  { ClassicSTALTAOnset.init sampling_rate with onset_centred := true }

/-- The pre_pad property getter (staltaonset.py lines 354-360). -/
def pre_pad (o : ClassicSTALTAOnset) : ℚ :=
  max o.p_onset_win.2 o.s_onset_win.2 + 3 * max o.p_onset_win.1 o.s_onset_win.1

/-- The post_pad property getter (staltaonset.py lines 368-376): it returns
the stored _post_pad, which raises AttributeError (none here) before the
setter has ever run. -/
def post_pad (o : ClassicSTALTAOnset) : Option ℚ := o.post_pad_store

/-- The post_pad setter (staltaonset.py lines 378-387):
np.ceil(ttmax + 2 * max(p_onset_win[1], s_onset_win[1])). -/
def set_post_pad (o : ClassicSTALTAOnset) (ttmax : ℚ) : ClassicSTALTAOnset :=
  { o with post_pad_store := (some
      ((⌈ttmax + 2 * max o.p_onset_win.2 o.s_onset_win.2⌉ : ℤ) : ℚ)) }

/-- ClassicSTALTAOnset.p_onset (staltaonset.py lines 278-309), acting on the
stored Z-component array sigz. -/
noncomputable def p_onset (bd : ℚ → ℚ → ℕ → List ℚ × List ℚ) (tap : List ℚ)
    (o : ClassicSTALTAOnset) (sigz : List (List ℚ)) (ch i : ℕ) : ℝ :=
  let stw := (winSamples o.p_onset_win.1 o.sampling_rate).toNat
  let ltw := (winSamples o.p_onset_win.2 o.sampling_rate).toNat
  let filt := filter bd tap sigz o.sampling_rate
    o.p_bp_filter.1 o.p_bp_filter.2.1 o.p_bp_filter.2.2
  onset filt stw ltw o.onset_centred ch i

/-- The single-component pipeline applied to each of the E and N arrays
inside s_onset (staltaonset.py lines 339-348). -/
noncomputable def sComponentOnset (bd : ℚ → ℚ → ℕ → List ℚ × List ℚ)
    (tap : List ℚ) (o : ClassicSTALTAOnset) (sig : List (List ℚ))
    (ch i : ℕ) : ℝ :=
  let stw := (winSamples o.s_onset_win.1 o.sampling_rate).toNat
  let ltw := (winSamples o.s_onset_win.2 o.sampling_rate).toNat
  let filt := filter bd tap sig o.sampling_rate
    o.s_bp_filter.1 o.s_bp_filter.2.1 o.s_bp_filter.2.2
  onset filt stw ltw o.onset_centred ch i

/-- ClassicSTALTAOnset.s_onset (staltaonset.py lines 311-352): filter and
onset each horizontal component, then combine per sample as
np.sqrt((s_e_onset ** 2 + s_n_onset ** 2) / 2) (line 350). -/
noncomputable def s_onset (bd : ℚ → ℚ → ℕ → List ℚ × List ℚ) (tap : List ℚ)
    (o : ClassicSTALTAOnset) (sige sign : List (List ℚ)) (ch i : ℕ) : ℝ :=
  let stw := (winSamples o.s_onset_win.1 o.sampling_rate).toNat
  let ltw := (winSamples o.s_onset_win.2 o.sampling_rate).toNat
  let filte := filter bd tap sige o.sampling_rate
    o.s_bp_filter.1 o.s_bp_filter.2.1 o.s_bp_filter.2.2
  let filtn := filter bd tap sign o.sampling_rate
    o.s_bp_filter.1 o.s_bp_filter.2.1 o.s_bp_filter.2.2
  let s_e_onset := onset filte stw ltw o.onset_centred ch i
  let s_n_onset := onset filtn stw ltw o.onset_centred ch i
  Real.sqrt ((s_e_onset ^ 2 + s_n_onset ^ 2) / 2)

/-- The interior-index ratio formula asserted by the claim for
sta_lta_centred (spec section 4.2), written with sums of the first k
squared samples: sumSqFirst a (k + 1) is the csum(k) of the spec. -/
def centredSpecFormula (a : List ℚ) (nsta nlta i : ℕ) : ℚ :=
  ((sumSqFirst a (i + 1 + nsta) - sumSqFirst a (i + 1)) / nsta)
    / ((sumSqFirst a (i + 1) - sumSqFirst a (i + 1 - nlta)) / nlta)

/-- A concrete stand-in for the external Butterworth design routine: the
identity filter b = [1], a = [1]. -/
def bdIdent : ℚ → ℚ → ℕ → List ℚ × List ℚ := fun _ _ _ => ([1], [1])

lemma cumAux_length (a : List ℚ) : ∀ acc : ℚ, (cumAux acc a).length = a.length := by
  induction a with
  | nil => intro acc; rfl
  | cons x xs ih => intro acc; simp [cumAux, ih]

lemma csum_length (a : List ℚ) : (csum a).length = a.length := cumAux_length a 0

lemma cumAux_getD (a : List ℚ) : ∀ (acc : ℚ) (k : ℕ), k < a.length →
    (cumAux acc a).getD k 0 = acc + sumSqFirst a (k + 1) := by
  induction a with
  | nil => intro acc k h; simp at h
  | cons x xs ih =>
    intro acc k h
    cases k with
    | zero =>
      simp [cumAux, sumSqFirst]
    | succ k =>
      have hk : k < xs.length := by simpa using h
      simp only [cumAux, List.getD_cons_succ]
      rw [ih (acc + x * x) k hk]
      simp only [sumSqFirst, List.take_succ_cons, List.map_cons, List.sum_cons]
      ring

lemma csum_getD (a : List ℚ) (k : ℕ) (h : k < a.length) :
    (csum a).getD k 0 = sumSqFirst a (k + 1) := by
  rw [csum, cumAux_getD a 0 k h, zero_add]

lemma sta_lta_centred_getD (a : List ℚ) (nsta nlta i : ℕ) (h : i < a.length) :
    (sta_lta_centred a nsta nlta).getD i 0 = staltaAt a nsta nlta i := by
  unfold sta_lta_centred
  rw [List.getD_eq_getElem _ _ (by simpa using h)]
  simp

lemma lfilterGo_zero (b a : List ℚ) (xs : List ℚ) :
    ∀ px py, (∀ x ∈ px, x = 0) → (∀ y ∈ py, y = 0) → (∀ x ∈ xs, x = 0) →
      ∀ z ∈ lfilterGo b a px py xs, z = 0 := by
  induction xs with
  | nil =>
    intro px py _ hy _ z hz
    simp only [lfilterGo] at hz
    exact hy z (List.mem_reverse.mp hz)
  | cons x xs ih =>
    intro px py hx hy hxs z hz
    have hx0 : x = 0 := hxs x (by simp)
    have hstep : lfStep b a x px py = 0 := by
      have hs1 : ((b.zip (x :: px)).map (fun p => p.1 * p.2)).sum = 0 := by
        apply List.sum_eq_zero
        intro q hq
        simp only [List.mem_map] at hq
        obtain ⟨p, hp, rfl⟩ := hq
        have hmem : p.2 ∈ x :: px := (List.of_mem_zip hp).2
        have hp2 : p.2 = 0 := by
          rcases List.mem_cons.mp hmem with h' | h'
          · rw [h']; exact hx0
          · exact hx p.2 h'
        rw [hp2, mul_zero]
      have hs2 : ((a.tail.zip py).map (fun p => p.1 * p.2)).sum = 0 := by
        apply List.sum_eq_zero
        intro q hq
        simp only [List.mem_map] at hq
        obtain ⟨p, hp, rfl⟩ := hq
        rw [hy p.2 (List.of_mem_zip hp).2, mul_zero]
      rw [lfStep, hs1, hs2, sub_zero, zero_div]
    simp only [lfilterGo] at hz
    refine ih (x :: px) (lfStep b a x px py :: py) ?_ ?_ ?_ z hz
    · intro u hu
      rcases List.mem_cons.mp hu with h' | h'
      · rw [h']; exact hx0
      · exact hx u h'
    · intro u hu
      rcases List.mem_cons.mp hu with h' | h'
      · rw [h']; exact hstep
      · exact hy u h'
    · intro u hu; exact hxs u (by simp [hu])

lemma lfilter_zero (b a xs : List ℚ) (h : ∀ x ∈ xs, x = 0) :
    ∀ z ∈ lfilter b a xs, z = 0 :=
  lfilterGo_zero b a xs [] [] (by simp) (by simp) h

lemma filterRow_zero (b a tap row : List ℚ) (h : ∀ x ∈ row, x = 0) :
    ∀ z ∈ filterRow b a tap row, z = 0 := by
  have hhead : row.headD 0 = 0 := by
    cases row with
    | nil => rfl
    | cons r rs => exact h r (by simp)
  have h0 : ∀ x ∈ row.map (fun v => v - row.headD 0), x = 0 := by
    intro x hx
    simp only [List.mem_map] at hx
    obtain ⟨v, hv, rfl⟩ := hx
    rw [h v hv, hhead, sub_zero]
  have ht : ∀ x ∈ ((row.map (fun v => v - row.headD 0)).zip tap).map
      (fun p => p.1 * p.2), x = 0 := by
    intro x hx
    simp only [List.mem_map] at hx
    obtain ⟨p, hp, rfl⟩ := hx
    rw [h0 p.1 (List.of_mem_zip hp).1, zero_mul]
  have hrev : ∀ x ∈ (((row.map (fun v => v - row.headD 0)).zip tap).map
      (fun p => p.1 * p.2)).reverse, x = 0 := by
    intro x hx; exact ht x (List.mem_reverse.mp hx)
  have h1 := lfilter_zero b a _ hrev
  have h1r : ∀ x ∈ (lfilter b a (((row.map (fun v => v - row.headD 0)).zip
      tap).map (fun p => p.1 * p.2)).reverse).reverse, x = 0 := by
    intro x hx; exact h1 x (List.mem_reverse.mp hx)
  intro z hz
  exact lfilter_zero b a _ h1r z hz

lemma filterRow_nil (b a tap : List ℚ) : filterRow b a tap [] = [] := rfl

lemma filter_getD (bd : ℚ → ℚ → ℕ → List ℚ × List ℚ) (tap : List ℚ)
    (sig : List (List ℚ)) (rate lc hc : ℚ) (ord ch : ℕ) :
    (filter bd tap sig rate lc hc ord).getD ch [] =
      filterRow (bd (2 * lc / rate) (2 * hc / rate) ord).1
        (bd (2 * lc / rate) (2 * hc / rate) ord).2 tap (sig.getD ch []) := by
  unfold filter filterArr
  by_cases h : ch < sig.length
  · rw [List.getD_eq_getElem _ _ (by simpa using h), List.getElem_map,
      List.getD_eq_getElem _ _ h]
  · rw [List.getD_eq_default _ _ (by simpa using le_of_not_lt h),
      List.getD_eq_default _ _ (le_of_not_lt h), filterRow_nil]

lemma p_onset_eq (bd : ℚ → ℚ → ℕ → List ℚ × List ℚ) (tap : List ℚ)
    (o : ClassicSTALTAOnset) (sigz : List (List ℚ)) (ch i : ℕ) :
    p_onset bd tap o sigz ch i =
      onsetRow ((filter bd tap sigz o.sampling_rate o.p_bp_filter.1
          o.p_bp_filter.2.1 o.p_bp_filter.2.2).getD ch [])
        (winSamples o.p_onset_win.1 o.sampling_rate).toNat
        (winSamples o.p_onset_win.2 o.sampling_rate).toNat
        o.onset_centred i := rfl

/-- Claim C7: reading the pre_pad property returns
max(p_long, s_long) + 3 * max(p_short, s_short) seconds, and with the
default windows (0.2, 1.0) for both P and S this is 1.6 = 8/5. -/
theorem claim7_pre_pad :
    (∀ o : ClassicSTALTAOnset, pre_pad o =
        max o.p_onset_win.2 o.s_onset_win.2
          + 3 * max o.p_onset_win.1 o.s_onset_win.1) ∧
      ∀ r : ℚ, pre_pad (ClassicSTALTAOnset.init r) = 8 / 5 := by
  refine ⟨fun o => rfl, fun r => ?_⟩
  norm_num [pre_pad, ClassicSTALTAOnset.init]

/-- Claim C8: after assigning a maximum travel time ttmax through the
post_pad setter, reading post_pad returns
ceil(ttmax + 2 * max(p_long, s_long)); for ttmax = 10 with the default
windows the value is 12. -/
theorem claim8_post_pad :
    (∀ (o : ClassicSTALTAOnset) (ttmax : ℚ),
        post_pad (set_post_pad o ttmax) =
          some ((⌈ttmax + 2 * max o.p_onset_win.2 o.s_onset_win.2⌉ : ℤ) : ℚ)) ∧
      ∀ r : ℚ,
        post_pad (set_post_pad (ClassicSTALTAOnset.init r) 10) = some 12 := by
  refine ⟨fun o t => rfl, fun r => ?_⟩
  have h1 : (10 : ℚ) + 2 * max (1 : ℚ) 1 = ((12 : ℤ) : ℚ) := by norm_num
  simp only [post_pad, set_post_pad, ClassicSTALTAOnset.init, h1,
    Int.ceil_intCast]
  norm_num

/-- Claim C10: reading post_pad before the setter has ever been invoked
yields no value (the constructor leaves the cached value unset), it is
defined after the setter runs, and pre_pad by contrast always has a value
derived from the windows. -/
theorem claim10_post_pad_unset :
    ∀ r : ℚ, post_pad (ClassicSTALTAOnset.init r) = none ∧
      (∀ t : ℚ,
        (post_pad (set_post_pad (ClassicSTALTAOnset.init r) t)).isSome = true) ∧
      pre_pad (ClassicSTALTAOnset.init r) = 8 / 5 := by
  intro r
  refine ⟨rfl, fun t => rfl, ?_⟩
  norm_num [pre_pad, ClassicSTALTAOnset.init]

/-- Claim C6: s_onset combines the two per-component onset pipelines by a
per-sample root-mean-square: at every channel and index the result equals
sqrt((e^2 + n^2) / 2) of the E- and N-component onset values. -/
theorem claim6_rms_combination (bd : ℚ → ℚ → ℕ → List ℚ × List ℚ)
    (tap : List ℚ) (o : ClassicSTALTAOnset) (sige sign : List (List ℚ))
    (ch i : ℕ) :
    s_onset bd tap o sige sign ch i =
      Real.sqrt ((sComponentOnset bd tap o sige ch i ^ 2
        + sComponentOnset bd tap o sign ch i ^ 2) / 2) := rfl

/-- Claim C9, counterexample: the filter operation does not fail on an
invalid specification.  With sampling rate 10 the Nyquist frequency is 5,
yet a high corner of 12 (and, in the second conjunct, an order of 0) is
accepted and an ordinary filtered array is returned, with no
InvalidFilterSpec condition of any kind. -/
theorem claim9_counterexample :
    filter bdIdent [1, 1] [[1, 2]] 10 2 12 2 = [[0, 1]] ∧
      filter bdIdent [1, 1] [[1, 2]] 10 2 12 0 = [[0, 1]] := by
  constructor <;>
    norm_num [filter, filterArr, filterRow, bdIdent, lfilter, lfilterGo, lfStep]

/-- Claim C9, amended: filter performs no validation at all.  Even when the
specification is invalid (here: high corner at or above the Nyquist
frequency), it simply hands the doubled normalized corners to the external
design routine and returns the filtered array built from whatever
coefficients that routine yields. -/
theorem claim9_no_validation (bd : ℚ → ℚ → ℕ → List ℚ × List ℚ)
    (tap : List ℚ) (sig : List (List ℚ)) (rate lc hc : ℚ) (order : ℕ)
    (_h : rate / 2 ≤ hc) :
    filter bd tap sig rate lc hc order =
      filterArr (bd (2 * lc / rate) (2 * hc / rate) order).1
        (bd (2 * lc / rate) (2 * hc / rate) order).2 tap sig := rfl

/-- Witness for claim C9: the amended theorem applied at a concrete invalid
specification (rate 10, high corner 12 above Nyquist 5). -/
theorem claim9_no_validation_witness :
    filter bdIdent [1, 1] [[1, 2]] 10 2 12 2 =
      filterArr (bdIdent (2 * 2 / 10) (2 * 12 / 10) 2).1
        (bdIdent (2 * 2 / 10) (2 * 12 / 10) 2).2 [1, 1] [[1, 2]] :=
  claim9_no_validation bdIdent [1, 1] [[1, 2]] 10 2 12 2 (by norm_num)

/-- Claim C4, counterexample: with a 0.2 s window and a sampling rate of
13 Hz the code computes int(0.2 * 13) + 1 = 3 samples, whereas
round(0.2 * 13) + 1 = 4. -/
theorem claim4_counterexample :
    winSamples (1 / 5) 13 ≠ round ((1 / 5 : ℚ) * 13) + 1 := by
  have hf : ⌊(1 / 5 : ℚ) * 13⌋ = 2 := by
    apply Int.floor_eq_iff.mpr
    constructor <;> norm_num
  have hr : round ((1 / 5 : ℚ) * 13) = 3 := by
    rw [round_eq]
    apply Int.floor_eq_iff.mpr
    constructor <;> norm_num
  rw [winSamples, pyInt, if_pos (by norm_num : (0 : ℚ) ≤ 1 / 5 * 13), hf, hr]
  norm_num

/-- Claim C4, amended: the window sample counts used by p_onset and s_onset
equal int(seconds * sampling_rate) + 1, truncation toward zero — for the
non-negative products that occur, the floor — and this coincides with
round(seconds * sampling_rate) + 1 exactly when the fractional part of
seconds * sampling_rate is below one half. -/
theorem claim4_window_trunc (sec rate : ℚ) (h : 0 ≤ sec * rate) :
    winSamples sec rate = ⌊sec * rate⌋ + 1 ∧
      (winSamples sec rate = round (sec * rate) + 1 ↔
        Int.fract (sec * rate) < 1 / 2) := by
  have hpy : winSamples sec rate = ⌊sec * rate⌋ + 1 := by
    rw [winSamples, pyInt, if_pos h]
  refine ⟨hpy, ?_⟩
  rw [hpy, round_eq]
  constructor
  · intro heq
    have hfl : ⌊sec * rate + 1 / 2⌋ = ⌊sec * rate⌋ := by omega
    have h2 := Int.lt_floor_add_one (sec * rate + 1 / 2)
    rw [hfl] at h2
    have h3 : sec * rate - ⌊sec * rate⌋ < 1 / 2 := by
      linarith
    rwa [Int.self_sub_floor] at h3
  · intro hf
    have hub : sec * rate - ⌊sec * rate⌋ < 1 / 2 := by
      rwa [Int.self_sub_floor]
    have hlb : (↑⌊sec * rate⌋ : ℚ) ≤ sec * rate + 1 / 2 :=
      le_trans (Int.floor_le _) (by linarith)
    have hfl : ⌊sec * rate + 1 / 2⌋ = ⌊sec * rate⌋ := by
      apply Int.floor_eq_iff.mpr
      refine ⟨hlb, ?_⟩
      linarith
    omega

/-- Witness for claim C4: the amended theorem applied at window 0.2 s and
sampling rate 10 Hz. -/
theorem claim4_window_trunc_witness :
    winSamples (1 / 5) 10 = ⌊(1 / 5 : ℚ) * 10⌋ + 1 :=
  (claim4_window_trunc (1 / 5) 10 (by norm_num)).1

/-- Claim C1 (code bug): line 119 of staltaonset.py applies np.log, the
natural logarithm, to the clipped ratio, while the function docstrings
(lines 100-101, 294-296, 333-335) and the spec say log10.  On the constant
channel [1, ..., 1] (centred mode, stw 1, ltw 5) the onset value at index 4
is Real.log 2, which differs from log10 2 = Real.logb 10 2. -/
theorem claim1_log_not_log10 :
    onsetRow [1, 1, 1, 1, 1, 1, 1, 1] 1 5 true 4 = Real.log 2 ∧
      Real.log 2 ≠ Real.logb 10 2 := by
  constructor
  · have hsum : ([1, 1, 1, 1, 1, 1, 1, 1] : List ℚ).sum ≠ 0 := by norm_num
    have hclip : clipRow [1, 1, 1, 1, 1, 1, 1, 1] 1 5 true 4 = 2 := by
      norm_num [clipRow, ratioAt, staltaAt, staVal, staShifted, staStage1,
        ltaVal, csum, cumAux, dtiny]
    rw [onsetRow, if_neg hsum, hclip]
    norm_num
  · intro hEq
    have h2 : (0 : ℝ) < Real.log 2 := Real.log_pos (by norm_num)
    have h10 : (1 : ℝ) < Real.log 10 := by
      have hexp : Real.exp 1 < 10 := lt_trans Real.exp_one_lt_d9 (by norm_num)
      exact (Real.lt_log_iff_exp_lt (by norm_num)).mpr hexp
    have hlt : Real.logb 10 2 < Real.log 2 := by
      rw [← Real.log_div_log]
      exact div_lt_self h2 h10
    exact hlt.ne' hEq

/-- Claim C2, counterexample: on the channel [0, 0, 0, 0, 1, 2, 3, 4] in
centred mode with stw 1 and ltw 4, the LTA value at index 3 is zero, yet
the onset value there is 0 — the forced ratio 0 gives 1 + 0 = 1, which the
0.8 floor leaves at 1, and log 1 = 0 — and 0 is not log10(0.8). -/
theorem claim2_counterexample :
    ltaVal [0, 0, 0, 0, 1, 2, 3, 4] 4 3 = 0 ∧
      onsetRow [0, 0, 0, 0, 1, 2, 3, 4] 1 4 true 3 = 0 ∧
      (0 : ℝ) ≠ Real.logb 10 (4 / 5) := by
  refine ⟨by norm_num [ltaVal, csum, cumAux], ?_, ?_⟩
  · have hsum : ([0, 0, 0, 0, 1, 2, 3, 4] : List ℚ).sum ≠ 0 := by norm_num
    have hclip : clipRow [0, 0, 0, 0, 1, 2, 3, 4] 1 4 true 3 = 1 := by
      norm_num [clipRow, ratioAt, staltaAt, staVal, staShifted, staStage1,
        ltaVal, csum, cumAux, dtiny]
    rw [onsetRow, if_neg hsum, hclip]
    norm_num
  · have hneg : Real.logb 10 (4 / 5) < 0 := by
      rw [← Real.log_div_log]
      exact div_neg_of_neg_of_pos
        (Real.log_neg (by norm_num) (by norm_num)) (Real.log_pos (by norm_num))
    exact hneg.ne'

/-- Claim C2, amended: for a channel whose samples do not sum to zero (so
the STA/LTA branch runs) in centred mode, every onset value is the real
logarithm of a rational clipped to at least 0.8 — hence finite, no NaN or
infinity — and at every index where the LTA value is zero the onset value
is exactly 0 (not log10(0.8)): the guard forces the ratio to 0, the clip
leaves 1 + 0 = 1 unchanged, and log 1 = 0. -/
theorem claim2_zero_lta_onset (a : List ℚ) (stw ltw i : ℕ)
    (h0 : a.sum ≠ 0) (hl : ltaVal a ltw i = 0) :
    onsetRow a stw ltw true i = 0 ∧
      ∀ j, 4 / 5 ≤ clipRow a stw ltw true j ∧
        onsetRow a stw ltw true j = Real.log (clipRow a stw ltw true j) := by
  constructor
  · have hg : ltaVal a ltw i < dtiny := by
      rw [hl]
      norm_num [dtiny]
    have hr : ratioAt a stw ltw true i = 0 := by
      simp only [ratioAt, if_true]
      rw [staltaAt, if_pos hg]
    have hclip : clipRow a stw ltw true i = 1 := by
      rw [clipRow, hr, add_zero]
      exact max_eq_right (by norm_num)
    rw [onsetRow, if_neg h0, hclip]
    norm_num
  · intro j
    exact ⟨le_max_left _ _, by rw [onsetRow, if_neg h0]⟩

/-- Witness for claim C2: the amended theorem applied to the channel
[0, 0, 0, 0, 1, 2, 3, 4] with stw 1, ltw 4, at the zero-LTA index 3. -/
theorem claim2_zero_lta_onset_witness :
    onsetRow [0, 0, 0, 0, 1, 2, 3, 4] 1 4 true 3 = 0 :=
  (claim2_zero_lta_onset [0, 0, 0, 0, 1, 2, 3, 4] 1 4 3 (by norm_num)
    (by norm_num [ltaVal, csum, cumAux])).1

/-- Claim C3, counterexample: the bypass test of onset() (line 111) sums the
FILTERED channel, not the raw one.  The raw channel [1, -1, 0, 0, 0, 0, 0, 0]
sums to zero, yet p_onset — here with the identity design coefficients and a
unit taper standing in for the external scipy/obspy numerics — does not
return a zero row: removing the initial offset (line 161) makes the filtered
sum -8, so STA/LTA runs and the value at index 4 is log(12/7), nonzero. -/
theorem claim3_counterexample :
    (([1, -1, 0, 0, 0, 0, 0, 0] : List ℚ).sum = 0) ∧
      p_onset bdIdent [1, 1, 1, 1, 1, 1, 1, 1] (CentredSTALTAOnset.init 4)
        [[1, -1, 0, 0, 0, 0, 0, 0]] 0 4 ≠ 0 := by
  refine ⟨by norm_num, ?_⟩
  have harg : (filter bdIdent [1, 1, 1, 1, 1, 1, 1, 1]
      [[1, -1, 0, 0, 0, 0, 0, 0]] 4 2 16 2).getD 0 [] =
      [0, -2, -1, -1, -1, -1, -1, -1] := by
    norm_num [filter, filterArr, filterRow, bdIdent, lfilter, lfilterGo,
      lfStep]
  have hf1 : ⌊(1 / 5 : ℚ) * 4⌋ = 0 := by
    apply Int.floor_eq_iff.mpr
    constructor <;> norm_num
  have hf2 : ⌊(1 : ℚ) * 4⌋ = 4 := by
    apply Int.floor_eq_iff.mpr
    constructor <;> norm_num
  have hw1 : (winSamples (1 / 5 : ℚ) 4).toNat = 1 := by
    rw [winSamples, pyInt, if_pos (by norm_num : (0 : ℚ) ≤ 1 / 5 * 4), hf1]
    rfl
  have hw2 : (winSamples (1 : ℚ) 4).toNat = 5 := by
    rw [winSamples, pyInt, if_pos (by norm_num : (0 : ℚ) ≤ 1 * 4), hf2]
    rfl
  have hkey : p_onset bdIdent [1, 1, 1, 1, 1, 1, 1, 1]
      (CentredSTALTAOnset.init 4) [[1, -1, 0, 0, 0, 0, 0, 0]] 0 4 =
      onsetRow [0, -2, -1, -1, -1, -1, -1, -1] 1 5 true 4 := by
    rw [p_onset_eq]
    simp only [CentredSTALTAOnset.init, ClassicSTALTAOnset.init]
    rw [hw1, hw2, harg]
  have hsum : ([0, -2, -1, -1, -1, -1, -1, -1] : List ℚ).sum ≠ 0 := by
    norm_num
  have hclip : clipRow [0, -2, -1, -1, -1, -1, -1, -1] 1 5 true 4 = 12 / 7 := by
    norm_num [clipRow, ratioAt, staltaAt, staVal, staShifted, staStage1,
      ltaVal, csum, cumAux, dtiny]
  rw [hkey, onsetRow, if_neg hsum, hclip]
  have hpos : (0 : ℝ) < Real.log ((12 / 7 : ℚ) : ℝ) := by
    apply Real.log_pos
    norm_num
  exact hpos.ne'

/-- Claim C3, amended: the zero-sum bypass applies to the FILTERED channel
(the sum test of line 111 runs inside onset(), after filter()), and
filtering itself is never skipped.  A channel whose raw row is entirely
zero still produces an all-zero onset row, because the filter maps an
all-zero row to an all-zero row, whose sum is then zero. -/
theorem claim3_zero_row (bd : ℚ → ℚ → ℕ → List ℚ × List ℚ) (tap : List ℚ)
    (o : ClassicSTALTAOnset) (sigz : List (List ℚ)) (ch : ℕ)
    (h : ∀ x ∈ sigz.getD ch [], x = 0) :
    ∀ i, p_onset bd tap o sigz ch i = 0 := by
  intro i
  rw [p_onset_eq, filter_getD]
  have hz := filterRow_zero
    (bd (2 * o.p_bp_filter.1 / o.sampling_rate)
      (2 * o.p_bp_filter.2.1 / o.sampling_rate) o.p_bp_filter.2.2).1
    (bd (2 * o.p_bp_filter.1 / o.sampling_rate)
      (2 * o.p_bp_filter.2.1 / o.sampling_rate) o.p_bp_filter.2.2).2
    tap (sigz.getD ch []) h
  have hsum := List.sum_eq_zero hz
  rw [onsetRow, if_pos hsum]

/-- Witness for claim C3: the amended theorem applied to an all-zero raw
channel with concrete stand-ins for the external filter numerics. -/
theorem claim3_zero_row_witness :
    p_onset bdIdent [1, 1, 1] (ClassicSTALTAOnset.init 4) [[0, 0, 0]] 0 2 = 0 :=
  claim3_zero_row bdIdent [1, 1, 1] (ClassicSTALTAOnset.init 4) [[0, 0, 0]] 0
    (by simp) 2

/-- Claim C5, counterexample: the interior-index formula omits the
division-by-zero guard of lines 61-65.  On the signal
[2 ^ (-600), 0, 1, 1] with nsta = 1, nlta = 2 (so 0 < nsta < nlta ≤ n and
index 1 is interior), the LTA average at index 1 is 2 ^ (-1201), below the
smallest positive normal double, so the guard forces the returned ratio to
0 — while the claimed cumulative-sum formula evaluates to 2 ^ 1201. -/
theorem claim5_counterexample :
    0 < 1 ∧ 1 < 2 ∧ 2 ≤ ([1 / 2 ^ 600, 0, 1, 1] : List ℚ).length ∧
      (2 : ℕ) - 1 ≤ 1 ∧ 1 < ([1 / 2 ^ 600, 0, 1, 1] : List ℚ).length - 1 ∧
      (sta_lta_centred [1 / 2 ^ 600, 0, 1, 1] 1 2).getD 1 0 ≠
        centredSpecFormula [1 / 2 ^ 600, 0, 1, 1] 1 2 1 := by
  refine ⟨by norm_num, by norm_num, by norm_num, by norm_num, by norm_num, ?_⟩
  have hget : (sta_lta_centred [1 / 2 ^ 600, 0, 1, 1] 1 2).getD 1 0 = 0 := by
    rw [sta_lta_centred_getD _ _ _ _ (by norm_num)]
    norm_num [staltaAt, staVal, staShifted, staStage1, ltaVal, csum, cumAux,
      dtiny]
  have hspec : centredSpecFormula [1 / 2 ^ 600, 0, 1, 1] 1 2 1 = 2 ^ 1201 := by
    norm_num [centredSpecFormula, sumSqFirst]
  rw [hget, hspec]
  norm_num

/-- Claim C5, amended: for 0 < nsta < nlta ≤ n, sta_lta_centred returns a
ratio array of length n whose first nlta - 1 and last nsta entries are
zero, and whose entry at each interior index equals the claimed
cumulative-sum formula — the STA landing nsta samples earlier than trailing
alignment — except where the LTA average falls below the smallest positive
normal double, where the division guard forces the entry to 0 instead. -/
theorem claim5_centred_indexing (a : List ℚ) (nsta nlta : ℕ)
    (h1 : 0 < nsta) (h2 : nsta < nlta) (h3 : nlta ≤ a.length) :
    (sta_lta_centred a nsta nlta).length = a.length ∧
      (∀ i, i < nlta - 1 → (sta_lta_centred a nsta nlta).getD i 0 = 0) ∧
      (∀ i, a.length - nsta ≤ i → (sta_lta_centred a nsta nlta).getD i 0 = 0) ∧
      (∀ i, nlta - 1 ≤ i → i < a.length - nsta →
        (sta_lta_centred a nsta nlta).getD i 0 =
          if ltaVal a nlta i < dtiny then 0
          else centredSpecFormula a nsta nlta i) := by
  refine ⟨by simp [sta_lta_centred], ?_, ?_, ?_⟩
  · intro i hi
    have hin : i < a.length := by omega
    rw [sta_lta_centred_getD a nsta nlta i hin]
    unfold staltaAt staVal
    rw [if_pos hi]
    simp
  · intro i hi
    by_cases hin : i < a.length
    · rw [sta_lta_centred_getD a nsta nlta i hin]
      unfold staltaAt staVal
      by_cases hc : i < nlta - 1
      · rw [if_pos hc]
        simp
      · rw [if_neg hc, if_pos hi]
        simp
    · unfold sta_lta_centred
      rw [List.getD_eq_default _ _ (by simpa using le_of_not_lt hin)]
  · intro i hi1 hi2
    have hin : i < a.length := by omega
    have hnsta_le : nsta ≤ i := by omega
    have hnotlt : ¬ i < nlta - 1 := by omega
    have hnotlast : ¬ a.length - nsta ≤ i := by omega
    have hiAdd : i + nsta < a.length := by omega
    rw [sta_lta_centred_getD a nsta nlta i hin]
    have hsv : staVal a nsta nlta i =
        (sumSqFirst a (i + 1 + nsta) - sumSqFirst a (i + 1)) / nsta := by
      unfold staVal staShifted staStage1
      rw [if_neg hnotlt, if_neg hnotlast,
        if_pos (show nsta ≤ i ∧ i < (csum a).length - nsta by
          rw [csum_length]; exact ⟨hnsta_le, hi2⟩),
        if_pos (Nat.le_add_left nsta i)]
      have he : i + nsta - nsta = i := by omega
      rw [he, csum_getD a (i + nsta) hiAdd, csum_getD a i hin]
      have he2 : i + nsta + 1 = i + 1 + nsta := by omega
      rw [he2]
    have hlv : ltaVal a nlta i =
        (sumSqFirst a (i + 1) - sumSqFirst a (i + 1 - nlta)) / nlta := by
      unfold ltaVal
      by_cases hnl : nlta ≤ i
      · rw [if_pos hnl, csum_getD a i hin, csum_getD a (i - nlta) (by omega)]
        have he : i - nlta + 1 = i + 1 - nlta := by omega
        rw [he]
      · rw [if_neg hnl, csum_getD a i hin]
        have he : i + 1 - nlta = 0 := by omega
        rw [he]
        have he2 : sumSqFirst a 0 = 0 := rfl
        rw [he2, sub_zero]
    unfold staltaAt centredSpecFormula
    rw [hsv, hlv]

/-- Witness for claim C5: the amended theorem applied to the constant
channel [1, ..., 1] with nsta = 1, nlta = 5, read at the zeroed index 2. -/
theorem claim5_centred_indexing_witness :
    (sta_lta_centred [1, 1, 1, 1, 1, 1, 1, 1] 1 5).getD 2 0 = 0 :=
  (claim5_centred_indexing [1, 1, 1, 1, 1, 1, 1, 1] 1 5 (by norm_num)
    (by norm_num) (by norm_num)).2.1 2 (by norm_num)

end QMStaLta
